import Mathlib

/-!
Shallow embedding of `oscilloscope.py` (pyTektronix): the waveform decoding
pipeline, the HTTP response parser and the `WaveformCollection` data
structure, together with proofs about the frozen specification claims.

Python floating-point values are modelled as exact rationals (`ℚ`); every
number appearing in the claims is exactly representable.  Python `dict`s are
modelled as insertion-ordered association lists whose update semantics
(`d[k] = v` replaces in place, else appends) mirror CPython.
-/

deriving instance DecidableEq for Except

namespace PyTektronix

section Embedding

/- Batteries marks the `Rat` arithmetic operations `@[irreducible]`, which
   only blocks elaborator-side evaluation; we restore the default so that
   concrete witnesses can be checked by `decide`. -/
attribute [local semireducible] Rat.add Rat.sub Rat.mul Rat.inv

/-! ## Python `dict` as an insertion-ordered association list -/

/-- Lookup in a Python dict: the first binding of the key (bindings are
unique in any list built with `dinsert`). -/
def dget {β : Type} (d : List (String × β)) (k : String) : Option β :=
  match d with
  | [] => none
  | (k₁, v) :: rest => if k₁ = k then some v else dget rest k

/-- Assignment `d[k] = v` on a Python dict: replaces the value in place when
the key is present, otherwise appends the new binding. -/
def dinsert {β : Type} (d : List (String × β)) (k : String) (v : β) :
    List (String × β) :=
  match d with
  | [] => [(k, v)]
  | (k₁, v₁) :: rest =>
    if k₁ = k then (k, v) :: rest else (k₁, v₁) :: dinsert rest k v

/-- Python `d₁.update(d₂)`: fold every binding of `d₂` into `d₁` with
`dinsert`, so the right-hand side wins on key collision. -/
def dupdate {β : Type} (d₁ d₂ : List (String × β)) : List (String × β) :=
  d₂.foldl (fun acc p => dinsert acc p.1 p.2) d₁

/-- Key list of a dict, in insertion order (Python `d.keys()`). -/
def dkeys {β : Type} (d : List (String × β)) : List String :=
  d.map Prod.fst

/-! ## Python string primitives

Core `String.splitOn` and `String.trim` do not kernel-reduce, so we give
structural implementations of the Python `str` operations the source uses
(`split(",")`, `strip()`), operating on the character list of the string. -/

/-- Characters Python `str.strip()` removes (the ASCII whitespace set). -/
def isPySpace (c : Char) : Bool :=
  c = ' ' ∨ c = '\t' ∨ c = '\n' ∨ c = '\r' ∨ c = '\x0b' ∨ c = '\x0c'

/-- Python `s.strip()`. -/
def pyStrip (s : String) : String :=
  String.mk (((s.toList.dropWhile isPySpace).reverse.dropWhile isPySpace).reverse)

/-- Splitting a character list at every occurrence of a separator character;
`[]` maps to `[[]]`, mirroring `"".split(",") == [""]` in Python. -/
def splitOnChar (c : Char) : List Char → List (List Char)
  | [] => [[]]
  | x :: xs =>
    let r := splitOnChar c xs
    if x = c then [] :: r
    else
      match r with
      | [] => [[x]]
      | g :: gs => (x :: g) :: gs

/-- Python `s.split(sep)` for a one-character separator. -/
def pySplit (s : String) (c : Char) : List String :=
  (splitOnChar c s.toList).map String.mk

/-! ## Python `float(...)` on finite decimal literals

`float` is modelled on exact rationals.  The grammar covers the finite
decimal forms `[+-] digits [. digits] [eE [+-] digits]` after stripping
whitespace; the special spellings (`inf`, `nan`, underscores, hex floats)
are not modelled — no claim mentions them. -/

/-- Numeric value of a decimal digit character. -/
def digitVal (c : Char) : ℕ := c.toNat - 48

/-- Value of a nonempty all-digit character list, most significant first. -/
def digitsVal (cs : List Char) : ℕ :=
  cs.foldl (fun n c => 10 * n + digitVal c) 0

/-- Unsigned mantissa `digits [. digits]`, needing at least one digit. -/
def parseMantissa (cs : List Char) : Option ℚ :=
  match splitOnChar '.' cs with
  | [i] =>
    if i ≠ [] ∧ i.all Char.isDigit then some (digitsVal i : ℚ) else none
  | [i, f] =>
    if (i ≠ [] ∨ f ≠ []) ∧ i.all Char.isDigit ∧ f.all Char.isDigit then
      some ((digitsVal i : ℚ) + (digitsVal f : ℚ) / (10 : ℚ) ^ f.length)
    else none
  | _ => none

/-- Signed mantissa: an optional leading sign before `parseMantissa`. -/
def parseSignedMantissa (cs : List Char) : Option ℚ :=
  match cs with
  | '-' :: rest => (parseMantissa rest).map Neg.neg
  | '+' :: rest => parseMantissa rest
  | _ => parseMantissa cs

/-- Signed decimal exponent after `e`/`E`. -/
def parseExponent (cs : List Char) : Option ℤ :=
  match cs with
  | '-' :: rest =>
    if rest ≠ [] ∧ rest.all Char.isDigit then some (-(digitsVal rest : ℤ))
    else none
  | '+' :: rest =>
    if rest ≠ [] ∧ rest.all Char.isDigit then some (digitsVal rest : ℤ)
    else none
  | _ =>
    if cs ≠ [] ∧ cs.all Char.isDigit then some (digitsVal cs : ℤ) else none

/-- Python `float(s)` on finite decimal literals, as an exact rational;
`none` models the `ValueError` raised on non-numeric text. -/
def parseFloat (s : String) : Option ℚ :=
  let cs := (pyStrip s).toList.map (fun c => if c = 'E' then 'e' else c)
  match splitOnChar 'e' cs with
  | [m] => parseSignedMantissa m
  | [m, e] => do
    let qm ← parseSignedMantissa m
    let qe ← parseExponent e
    pure (qm * (10 : ℚ) ^ qe)
  | _ => none

/-! ## Error taxonomy

The spec names the errors abstractly; the Python code raises built-in
exceptions (`KeyError` on a missing dict key or lookup-table miss,
`ValueError` from `float(...)`, `AttributeError("Incompatible addition")`
from `WaveformCollection.__add__`).  Constructors below follow the spec's
taxonomy names for those exception sites. -/

/-- Errors that can abort decoding of one channel. -/
inductive DecodeError where
  | UnsupportedFormatError
  | MalformedSampleError
  | MalformedHeaderError
  deriving DecidableEq

/-- Error raised by `WaveformCollection.__add__` on an `idn` mismatch
(`AttributeError("Incompatible addition")` in the source). -/
inductive MergeError where
  | IncompatibleMergeError
  deriving DecidableEq

/-! ## Binary sample decoding

`FORMATTER_LOOKUP` maps `(BYT_NR, BN_FMT)` to a `struct`-style element type;
`query_binary_values` (pyvisa, an external collaborator) then interprets the
returned byte block element-wise with the chosen type and byte order, per
the fixed table of spec §4.1. -/

/-- Element types named by the format characters in `FORMATTER_LOOKUP`
(`b/B` 1-byte, `h/H` 2-byte, `i/I` 4-byte integers signed/unsigned,
`q/Q` 8-byte integers, `f/d` IEEE binary32/binary64). -/
inductive FmtCode where
  | b | B | h | H | i | I | q | Q | f | d
  deriving DecidableEq

/-- Byte width of an element type. -/
def FmtCode.width : FmtCode → ℕ
  | .b | .B => 1
  | .h | .H => 2
  | .i | .I | .f => 4
  | .q | .Q | .d => 8

/-- The fixed `(byte width, format code)` table from the top of the module;
`none` models the `KeyError` on an absent combination. -/
def FORMATTER_LOOKUP (bytNr bnFmt : String) : Option FmtCode :=
  match bytNr, bnFmt with
  | "1", "RI" => some .b
  | "1", "RP" => some .B
  | "2", "RI" => some .h
  | "2", "RP" => some .H
  | "4", "RI" => some .i
  | "4", "RP" => some .I
  | "4", "FP" => some .f
  | "8", "RI" => some .q
  | "8", "RP" => some .Q
  | "8", "FP" => some .d
  | _, _ => none

/-- Value of a byte sequence read most-significant byte first. -/
def bytesBE (chunk : List ℕ) : ℕ :=
  chunk.foldl (fun n b => 256 * n + b) 0

/-- Reinterpret a `w`-byte unsigned value as two's-complement signed. -/
def toSigned (w : ℕ) (n : ℕ) : ℤ :=
  if n < 2 ^ (8 * w - 1) then (n : ℤ) else (n : ℤ) - 2 ^ (8 * w)

/-- Finite IEEE-754 value of a bit pattern with the given exponent and
mantissa widths, as an exact rational.  NaN and infinity patterns have no
rational value and are mapped to `MalformedSampleError`; no claim reaches
them. -/
def ieeeVal (expBits mantBits : ℕ) (bias : ℤ) (n : ℕ) : Except DecodeError ℚ :=
  let m := n % 2 ^ mantBits
  let e := (n / 2 ^ mantBits) % 2 ^ expBits
  let sgn : ℚ := if (n / 2 ^ (mantBits + expBits)) % 2 = 1 then -1 else 1
  if e = 2 ^ expBits - 1 then .error .MalformedSampleError
  else if e = 0 then
    .ok (sgn * (m : ℚ) * (2 : ℚ) ^ (1 - bias - (mantBits : ℤ)))
  else
    .ok (sgn * ((2 ^ mantBits + m : ℕ) : ℚ) * (2 : ℚ) ^ ((e : ℤ) - bias - (mantBits : ℤ)))

/-- Value of one element, given its bytes in most-significant-first order. -/
def decodeChunk (fmt : FmtCode) (chunk : List ℕ) : Except DecodeError ℚ :=
  let n := bytesBE chunk
  match fmt with
  | .b => .ok ((toSigned 1 n : ℤ) : ℚ)
  | .B => .ok (n : ℚ)
  | .h => .ok ((toSigned 2 n : ℤ) : ℚ)
  | .H => .ok (n : ℚ)
  | .i => .ok ((toSigned 4 n : ℤ) : ℚ)
  | .I => .ok (n : ℚ)
  | .q => .ok ((toSigned 8 n : ℤ) : ℚ)
  | .Q => .ok (n : ℚ)
  | .f => ieeeVal 8 23 127 n
  | .d => ieeeVal 11 52 1023 n

/-- Split a byte list into consecutive groups; `k` counts the slots left in
the current group and `acc` holds its bytes so far. -/
def chunkGo (w : ℕ) : List ℕ → ℕ → List ℕ → List (List ℕ)
  | [], _, acc => if acc.isEmpty then [] else [acc]
  | x :: xs, k, acc =>
    if k ≤ 1 then (acc ++ [x]) :: chunkGo w xs w []
    else chunkGo w xs (k - 1) (acc ++ [x])

/-- Split a byte list into consecutive groups of `w` bytes. -/
def chunkList (w : ℕ) (l : List ℕ) : List (List ℕ) :=
  chunkGo w l w []

/-- Byte-block decoding as performed by pyvisa `query_binary_values`: the
block is cut into elements of the format's width, each element read
most-significant-first when `isBig`, least-significant-first otherwise.  A
block length that is not a multiple of the element width is a malformed
sample block. -/
def decodeBinary (fmt : FmtCode) (isBig : Bool) (bytes : List ℕ) :
    Except DecodeError (List ℚ) :=
  if bytes.length % fmt.width = 0 then
    (chunkList fmt.width bytes).mapM
      (fun c => decodeChunk fmt (if isBig then c else c.reverse))
  else .error .MalformedSampleError

/-! ## Channel decoding (`_get_data_visa` body after the enable check) -/

/-- Fetch `float(header[k])`: a missing key is Python's `KeyError`, a
non-numeric value the `ValueError` from `float`; both are the fatal
malformed-header decode error of spec §3. -/
def calField (hdr : List (String × String)) (k : String) :
    Except DecodeError ℚ :=
  match dget hdr k with
  | none => .error .MalformedHeaderError
  | some s =>
    match parseFloat s with
    | none => .error .MalformedHeaderError
    | some q => .ok q

/-- Fetch `header[k]` as a string (`KeyError` when absent). -/
def strField (hdr : List (String × String)) (k : String) :
    Except DecodeError String :=
  match dget hdr k with
  | none => .error .MalformedHeaderError
  | some s => .ok s

/-- ASCII curve decoding: split the response on commas, convert each token
with `float`, and apply the affine transform to each raw value, exactly as
the list comprehension on the ASCII branch does. -/
def decodeAsciiCurve (ym yoff yz : ℚ) (curve : String) :
    Except DecodeError (List ℚ) :=
  (pySplit curve ',').mapM
    (fun entry =>
      match parseFloat entry with
      | some x => Except.ok ((x - yoff) * ym + yz)
      | none => Except.error DecodeError.MalformedSampleError)

/-- Decoding of one enabled channel from its header and raw curve data,
following `_get_data_visa` lines 158-174: read the three calibration fields,
branch on `ENCDG`; on `ASCII` split/convert/transform the curve text, on
`BINARY` look up the element type, read the byte order, decode the block and
transform; any other `ENCDG` value leaves `ret_val = []`. -/
def decodeChannel (hdr : List (String × String)) (curveText : String)
    (curveBytes : List ℕ) : Except DecodeError (List ℚ) := do
  let ym ← calField hdr "YMULT"
  let yoff ← calField hdr "YOFF"
  let yz ← calField hdr "YZERO"
  let encdg ← strField hdr "ENCDG"
  if encdg = "ASCII" then
    decodeAsciiCurve ym yoff yz curveText
  else if encdg = "BINARY" then do
    let bytNr ← strField hdr "BYT_NR"
    let bnFmt ← strField hdr "BN_FMT"
    let fmt ←
      match FORMATTER_LOOKUP bytNr bnFmt with
      | none => Except.error DecodeError.UnsupportedFormatError
      | some fmt => Except.ok fmt
    let byteOrd ← strField hdr "BYT_OR"
    let raw ← decodeBinary fmt (byteOrd = "MSB") curveBytes
    pure (raw.map (fun entry => (entry - yoff) * ym + yz))
  else
    pure []

/-! ## Instrument oracle and the VISA acquisition path -/

/-- Responses of the connected instrument, one field per query the VISA path
makes.  `header` is the already-parsed result of `_get_header` (its
semicolon/space splitting is response-format glue); `selectResp` answers
`select:<source>?`; `curveText`/`curveBytes` answer `curve?` in the two
encodings.  The `data:source`, `data:start`, `data:stop` writes are
outbound I/O with no effect on the modelled responses. -/
structure Instrument where
  idn : String
  selectResp : String → String
  header : String → List (String × String)
  curveText : String → String
  curveBytes : String → List ℕ

/-- Truth of Python `query(...)[0] == "0"`: the response's first character
is `'0'` (an empty response would raise `IndexError`; no claim uses one). -/
def startsWithZero (s : String) : Bool :=
  s.toList.head? = some '0'

/-- The sequence of `(source, decoded samples, header)` triples yielded by
the generator `_get_data_visa`.  The disabled-channel branch executes
`return [], header` inside a generator: it raises `StopIteration`, so the
generator simply stops — the `[], header` pair is discarded and no later
source is visited.  A decode exception propagates to the caller. -/
def visaTriples (inst : Instrument) :
    List String →
      Except DecodeError (List (String × List ℚ × List (String × String)))
  | [] => .ok []
  | source :: rest =>
    let hdr := inst.header source
    if startsWithZero (inst.selectResp source) then .ok []
    else do
      let vals ← decodeChannel hdr (inst.curveText source)
        (inst.curveBytes source)
      let tail ← visaTriples inst rest
      pure ((source, vals, hdr) :: tail)

/-! ## WaveformCollection -/

/-- The merged-result container: `idn` is the instrument identity, `data`
models `_data` (channel name to samples, type `V`) and `header` models
`_header` (a dict with values of type `HV`).  Python stores further shapes
in these untyped fields (the HTTP path puts the label list under the key
`"label"`); the two type parameters let each acquisition path pick its
value types. -/
structure WaveformCollection (V HV : Type) where
  idn : String := ""
  data : List (String × V) := []
  header : List (String × HV) := []
  deriving DecidableEq

/-- Channel-name list, in insertion order (the `sources` property). -/
def WaveformCollection.sources {V HV : Type} (wf : WaveformCollection V HV) :
    List String :=
  dkeys wf.data

/-- Assignment `wf[key] = value` for channel data (`__setitem__`): the key
`"header"` is routed to `_header` instead — storing a sample list there is a
dynamically-typed state this model cannot represent, so that branch leaves
the collection unchanged and theorems touching it carry the hypothesis that
no channel is literally named `"header"` (`_data` itself can never hold that
key, precisely because of this dispatch). -/
def WaveformCollection.setData {V HV : Type} (wf : WaveformCollection V HV)
    (key : String) (v : V) : WaveformCollection V HV :=
  if key = "header" then wf
  else { wf with data := dinsert wf.data key v }

/-- Assignment `wf["header"] = hdr` (`__setitem__` on the `"header"` key). -/
def WaveformCollection.setHeader {V HV : Type} (wf : WaveformCollection V HV)
    (hdr : List (String × HV)) : WaveformCollection V HV :=
  { wf with header := hdr }

/-- The channel loop of `__add__`: `for name in other.sources:
self[name] = other[name]`.  The loop value `other[name]` is the first
binding of `name` (a Python dict lookup); the `"header"` dispatch inside
`self[name] = ...` skips the write, a branch that is dead because `_data`
never holds that key. -/
def mergeData {V : Type} (a b : List (String × V)) : List (String × V) :=
  (dkeys b).foldl
    (fun acc n =>
      if n = "header" then acc
      else
        match dget b n with
        | some v => dinsert acc n v
        | none => acc)
    a

/-- Content of the collection produced by a successful `a + b`: `idn` is
untouched, `self._header.update(other.header())` unions the headers with the
right side winning, and the channel loop folds the right side's channels
in. -/
def mergeContent {V HV : Type} (a b : WaveformCollection V HV) :
    WaveformCollection V HV :=
  { idn := a.idn
    header := dupdate a.header b.header
    data := mergeData a.data b.data }

/-- Merge operator `__add__`: gated on exact `idn` equality,
raising on mismatch. -/
def WaveformCollection.add {V HV : Type} (a b : WaveformCollection V HV) :
    Except MergeError (WaveformCollection V HV) :=
  if a.idn = b.idn then .ok (mergeContent a b)
  else .error MergeError.IncompatibleMergeError

/-- Which of the two argument objects of `__add__` the returned reference
is. -/
inductive RetRef where
  | left | right
  deriving DecidableEq

/-- Heap fragment for one evaluation of `a + b`: the two argument objects. -/
structure TwoCells (V HV : Type) where
  a : WaveformCollection V HV
  b : WaveformCollection V HV
  deriving DecidableEq

/-- Small-step account of `__add__` as a mutation: after the `idn` guard,
`self._header.update(...)` rewrites only the left cell's header, the loop
rewrites only the left cell's data, and `return self` returns the left
reference; the right cell is only ever read. -/
def addMut {V HV : Type} (s : TwoCells V HV) :
    Except MergeError (TwoCells V HV × RetRef) :=
  if s.a.idn = s.b.idn then
    let s₁ : TwoCells V HV :=
      { s with a := { s.a with header := dupdate s.a.header s.b.header } }
    let s₂ : TwoCells V HV :=
      { s₁ with a := { s₁.a with data := (mergeContent s.a s.b).data } }
    .ok (s₂, RetRef.left)
  else .error MergeError.IncompatibleMergeError

/-- Well-formedness every `WaveformCollection` the class can build enjoys:
distinct channel names, no channel named `"header"` (the `__setitem__`
dispatch makes that key unreachable in `_data`), distinct header keys. -/
def WFcoll {V HV : Type} (wf : WaveformCollection V HV) : Prop :=
  (dkeys wf.data).Nodup ∧ "header" ∉ dkeys wf.data ∧ (dkeys wf.header).Nodup

instance {V HV : Type} (wf : WaveformCollection V HV) : Decidable (WFcoll wf) := by
  unfold WFcoll
  infer_instance

/-! ## VISA orchestrator (`get_data_visa`) -/

/-- One loop iteration of `get_data_visa`: `wf[ch_name] = ch_data` then
`wf["header"] = ch_header`, both through `__setitem__`. -/
def visaStep (wf : WaveformCollection (List ℚ) String)
    (t : String × List ℚ × List (String × String)) :
    WaveformCollection (List ℚ) String :=
  (wf.setData t.1 t.2.1).setHeader t.2.2

/-- Orchestrator `get_data_visa`: create an empty collection, set `idn` from `*IDN?`,
then fold the generator's triples into it (the `if channels:` guard is
redundant and not modelled separately — iterating an empty generator is a
no-op).  A decode exception escapes the whole call. -/
def getDataVisa (inst : Instrument) (channels : List String) :
    Except DecodeError (WaveformCollection (List ℚ) String) := do
  let ts ← visaTriples inst channels
  pure (ts.foldl visaStep
    { idn := inst.idn, data := [], header := [] })

/-! ## HTTP response parsing (`parse_response` preamble) -/

/-- Python `file.readline()` on a list of remaining lines: pops the next
line, or returns `""` forever at end of input. -/
def readline (ls : List String) : String × List String :=
  match ls with
  | [] => ("", [])
  | l :: rest => (l, rest)

/-- The preamble loop of `parse_response`: up to `fuel` (21) iterations,
each reads a line, strips and comma-splits it; a first field `"Label"`
breaks out; a two-field line with a truthy (nonempty) first field becomes a
header entry; every other line is ignored.  Returns the header dict and the
unread lines. -/
def parsePreambleAux :
    ℕ → List String → List (String × String) →
      List (String × String) × List String
  | 0, ls, hdr => (hdr, ls)
  | fuel + 1, ls, hdr =>
    let (line, rest) := readline ls
    let words := pySplit (pyStrip line) ','
    if words.headD "" = "Label" then (hdr, rest)
    else
      match words with
      | [k, v] =>
        if k = "" then parsePreambleAux fuel rest hdr
        else parsePreambleAux fuel rest (dinsert hdr k v)
      | _ => parsePreambleAux fuel rest hdr

/-- Result of the header phase of `parse_response`: the parsed preamble and
the column-label row (Python stores the label list in the same dict under
the key `"label"`; it is a separate field here because its value is a list,
not a string).  The numeric table that follows is read by `numpy.genfromtxt`
(an external collaborator) and is not part of any claim. -/
structure ParsedHttp where
  header : List (String × String)
  label : List String
  deriving DecidableEq

/-- Header phase of `parse_response`: run the 21-iteration preamble loop,
then read one more line as the comma-separated column-label row. -/
def parseResponseHeader (ls : List String) : ParsedHttp × List String :=
  let (hdr, rest) := parsePreambleAux 21 ls []
  let (labelLine, rest₂) := readline rest
  (⟨hdr, pySplit (pyStrip labelLine) ','⟩, rest₂)

/-! ## Supporting lemmas: dict operations -/

theorem dget_dinsert_self {β : Type} (d : List (String × β)) (k : String)
    (v : β) : dget (dinsert d k v) k = some v := by
  induction d with
  | nil => simp [dinsert, dget]
  | cons p rest ih =>
    by_cases h : p.1 = k
    · simp [dinsert, dget, h]
    · simp [dinsert, dget, h, ih]

theorem dget_dinsert_ne {β : Type} (d : List (String × β)) {k k₁ : String}
    (v : β) (hne : k₁ ≠ k) : dget (dinsert d k₁ v) k = dget d k := by
  induction d with
  | nil => simp [dinsert, dget, hne]
  | cons p rest ih =>
    have hkk : ¬ k = k₁ := fun hk => hne hk.symm
    by_cases h : p.1 = k₁
    · have hpk : ¬ p.1 = k := by rw [h]; exact hne
      simp only [dinsert, if_pos h, dget, if_neg hne, if_neg hpk]
    · by_cases h₂ : p.1 = k <;> simp [dinsert, dget, h, h₂, ih, hkk]

theorem dget_eq_none_of_not_mem {β : Type} (d : List (String × β))
    {k : String} (h : k ∉ dkeys d) : dget d k = none := by
  induction d with
  | nil => rfl
  | cons p rest ih =>
    have h₁ : ¬ p.1 = k := by
      intro he
      exact h (by simp [dkeys, he])
    have h₂ : k ∉ dkeys rest := by
      intro hm
      exact h (by simp [dkeys] at hm ⊢; exact Or.inr hm)
    simp [dget, h₁, ih h₂]

theorem dkeys_dinsert {β : Type} (d : List (String × β)) (k : String)
    (v : β) :
    dkeys (dinsert d k v) = if k ∈ dkeys d then dkeys d else dkeys d ++ [k] := by
  induction d with
  | nil => simp [dinsert, dkeys]
  | cons p rest ih =>
    by_cases h : p.1 = k
    · simp [dinsert, dkeys, h]
    · have hne : ¬ k = p.1 := fun hk => h hk.symm
      by_cases hm : k ∈ dkeys rest
      · simp only [dinsert, if_neg h, dkeys, List.map_cons]
        simp only [dkeys] at ih hm
        simp [ih, hm, hne, List.mem_cons]
      · simp only [dinsert, if_neg h, dkeys, List.map_cons]
        simp only [dkeys] at ih hm
        simp [ih, hm, hne, List.mem_cons]

theorem nodup_dkeys_dinsert {β : Type} (d : List (String × β)) (k : String)
    (v : β) (h : (dkeys d).Nodup) : (dkeys (dinsert d k v)).Nodup := by
  rw [dkeys_dinsert]
  by_cases hm : k ∈ dkeys d
  · simpa [hm]
  · simpa [hm, List.nodup_append] using h

theorem mem_dkeys_dinsert {β : Type} (d : List (String × β)) {k k₁ : String}
    (v : β) (h : k ∈ dkeys (dinsert d k₁ v)) : k = k₁ ∨ k ∈ dkeys d := by
  rw [dkeys_dinsert] at h
  by_cases hm : k₁ ∈ dkeys d
  · simp [hm] at h; exact Or.inr h
  · simp [hm] at h; tauto

theorem nodup_dkeys_dupdate {β : Type} (d₁ d₂ : List (String × β))
    (h : (dkeys d₁).Nodup) : (dkeys (dupdate d₁ d₂)).Nodup := by
  induction d₂ generalizing d₁ with
  | nil => simpa [dupdate]
  | cons p rest ih =>
    simpa [dupdate] using ih (dinsert d₁ p.1 p.2) (nodup_dkeys_dinsert _ _ _ h)

theorem mem_dkeys_dupdate {β : Type} (d₁ d₂ : List (String × β)) {k : String}
    (h : k ∈ dkeys (dupdate d₁ d₂)) : k ∈ dkeys d₁ ∨ k ∈ dkeys d₂ := by
  induction d₂ generalizing d₁ with
  | nil => simpa [dupdate] using Or.inl h
  | cons p rest ih =>
    have := ih (dinsert d₁ p.1 p.2) (by simpa [dupdate] using h)
    rcases this with h₁ | h₂
    · rcases mem_dkeys_dinsert d₁ p.2 h₁ with h | h
      · exact Or.inr (by simp [dkeys, h])
      · exact Or.inl h
    · exact Or.inr (by simp [dkeys] at h₂ ⊢; tauto)

/-- Lookup through a dict update: the right-hand dict wins whenever it binds
the key (stated for right-hand dicts with distinct keys, which is every dict
a Python program can build). -/
theorem dget_dupdate {β : Type} (d₁ d₂ : List (String × β)) (k : String)
    (h₂ : (dkeys d₂).Nodup) :
    dget (dupdate d₁ d₂) k = (dget d₂ k).orElse (fun _ => dget d₁ k) := by
  induction d₂ generalizing d₁ with
  | nil => simp [dupdate, dget, Option.orElse]
  | cons p rest ih =>
    have hrest : (dkeys rest).Nodup := by
      have : (dkeys (p :: rest)) = p.1 :: dkeys rest := by simp [dkeys]
      rw [this] at h₂
      exact h₂.of_cons
    have hp : p.1 ∉ dkeys rest := by
      have he : (dkeys (p :: rest)) = p.1 :: dkeys rest := by simp [dkeys]
      rw [he] at h₂
      exact (List.nodup_cons.mp h₂).1
    have hstep : dupdate d₁ (p :: rest) = dupdate (dinsert d₁ p.1 p.2) rest := by
      simp [dupdate]
    by_cases hk : p.1 = k
    · subst hk
      have hnone : dget rest p.1 = none := dget_eq_none_of_not_mem rest hp
      rw [hstep, ih (dinsert d₁ p.1 p.2) hrest]
      simp [dget, hnone, dget_dinsert_self, Option.orElse]
    · rw [hstep, ih (dinsert d₁ p.1 p.2) hrest]
      simp only [dget, if_neg hk, dget_dinsert_ne _ _ hk]


/-! ## Supporting lemmas: `Except` binds -/

@[simp]
theorem except_bind_ok {ε α β : Type} (a : α) (f : α → Except ε β) :
    (Except.ok a >>= f) = f a := rfl

@[simp]
theorem except_bind_error {ε α β : Type} (e : ε) (f : α → Except ε β) :
    ((Except.error e : Except ε α) >>= f) = Except.error e := rfl

@[simp]
theorem except_pure_eq {ε α : Type} (a : α) :
    (pure a : Except ε α) = Except.ok a := rfl

/-! ## Supporting lemmas: ASCII decoding -/

theorem mapM_float_transform (ym yoff yz : ℚ) :
    ∀ (ts : List String) (xs : List ℚ),
      ts.mapM parseFloat = some xs →
      ts.mapM
          (fun entry =>
            match parseFloat entry with
            | some x => Except.ok ((x - yoff) * ym + yz)
            | none => Except.error DecodeError.MalformedSampleError) =
        Except.ok (xs.map (fun raw => (raw - yoff) * ym + yz)) := by
  intro ts
  induction ts with
  | nil =>
    intro xs h
    simp only [List.mapM_nil, Option.pure_def, Option.some.injEq] at h
    subst h
    rfl
  | cons t rest ih =>
    intro xs h
    rw [List.mapM_cons] at h
    cases hf : parseFloat t with
    | none => rw [hf] at h; simp at h
    | some q =>
      rw [hf] at h
      cases hr : rest.mapM parseFloat with
      | none => rw [hr] at h; simp at h
      | some qs =>
        rw [hr] at h
        have hx : q :: qs = xs := by simpa using h
        subst hx
        rw [List.mapM_cons, hf]
        rw [ih qs hr]
        rfl

theorem decodeAsciiCurve_eq_map (ym yoff yz : ℚ) (curve : String)
    (xs : List ℚ) (h : (pySplit curve ',').mapM parseFloat = some xs) :
    decodeAsciiCurve ym yoff yz curve =
      .ok (xs.map (fun raw => (raw - yoff) * ym + yz)) := by
  unfold decodeAsciiCurve
  exact mapM_float_transform ym yoff yz (pySplit curve ',') xs h

/-! ## Supporting lemmas: byte chunking -/

theorem FmtCode.width_pos (fmt : FmtCode) : 0 < fmt.width := by
  cases fmt <;> decide

theorem chunkGo_length_eq (l : List ℕ) :
    ∀ (acc : List ℕ) (w : ℕ), l ≠ [] → chunkGo w l l.length acc = [acc ++ l] := by
  induction l with
  | nil => intro _ _ h; exact absurd rfl h
  | cons x xs ih =>
    intro acc w _
    by_cases hxs : xs = []
    · subst hxs
      simp [chunkGo]
    · have hlen : ¬ xs.length + 1 ≤ 1 := by
        have := List.length_pos.mpr hxs
        omega
      simp only [List.length_cons, chunkGo, if_neg hlen,
        Nat.add_sub_cancel]
      rw [ih (acc ++ [x]) w hxs]
      simp

theorem chunkList_eq_width (w : ℕ) (l : List ℕ) (hw : l.length = w)
    (hne : l ≠ []) : chunkList w l = [l] := by
  unfold chunkList
  rw [← hw]
  simpa using chunkGo_length_eq l [] l.length hne

/-! ## Supporting lemmas: merge content -/

theorem mergeData_eq_dupdate {V : Type} (a b : List (String × V))
    (hnd : (dkeys b).Nodup) (hh : "header" ∉ dkeys b) :
    mergeData a b = dupdate a b := by
  induction b generalizing a with
  | nil => simp [mergeData, dupdate, dkeys]
  | cons p rest ih =>
    have hkeys : dkeys (p :: rest) = p.1 :: dkeys rest := by simp [dkeys]
    rw [hkeys] at hnd hh
    have hph : ¬ p.1 = "header" := fun he => hh (by simp [he])
    have hpn : p.1 ∉ dkeys rest := (List.nodup_cons.mp hnd).1
    have hext :
        (dkeys rest).foldl
            (fun acc n =>
              if n = "header" then acc
              else
                match dget (p :: rest) n with
                | some v => dinsert acc n v
                | none => acc)
            (dinsert a p.1 p.2) =
          (dkeys rest).foldl
            (fun acc n =>
              if n = "header" then acc
              else
                match dget rest n with
                | some v => dinsert acc n v
                | none => acc)
            (dinsert a p.1 p.2) := by
      refine List.foldl_ext _ _ _ ?_
      intro acc n hn
      have hne : ¬ p.1 = n := fun he => hpn (he ▸ hn)
      simp [dget, hne]
    have hstep :
        mergeData a (p :: rest) =
          (dkeys rest).foldl
            (fun acc n =>
              if n = "header" then acc
              else
                match dget (p :: rest) n with
                | some v => dinsert acc n v
                | none => acc)
            (dinsert a p.1 p.2) := by
      simp [mergeData, hkeys, hph, dget]
    rw [hstep, hext]
    have hdup : dupdate a (p :: rest) = dupdate (dinsert a p.1 p.2) rest := by
      simp [dupdate]
    rw [hdup, ← ih (dinsert a p.1 p.2) (List.nodup_cons.mp hnd).2
      (fun hm => hh (by simp [hm]))]
    rfl

theorem dget_mergeData {V : Type} (a b : List (String × V)) (n : String)
    (hnd : (dkeys b).Nodup) (hh : "header" ∉ dkeys b) :
    dget (mergeData a b) n = (dget b n).orElse (fun _ => dget a n) := by
  rw [mergeData_eq_dupdate a b hnd hh]
  exact dget_dupdate a b n hnd

theorem WFcoll_mergeContent {V HV : Type} (a b : WaveformCollection V HV)
    (ha : WFcoll a) (hb : WFcoll b) : WFcoll (mergeContent a b) := by
  obtain ⟨ha₁, ha₂, ha₃⟩ := ha
  obtain ⟨hb₁, hb₂, hb₃⟩ := hb
  refine ⟨?_, ?_, ?_⟩
  · rw [show (mergeContent a b).data = mergeData a.data b.data from rfl,
      mergeData_eq_dupdate a.data b.data hb₁ hb₂]
    exact nodup_dkeys_dupdate _ _ ha₁
  · rw [show (mergeContent a b).data = mergeData a.data b.data from rfl,
      mergeData_eq_dupdate a.data b.data hb₁ hb₂]
    intro hm
    rcases mem_dkeys_dupdate _ _ hm with h | h
    · exact ha₂ h
    · exact hb₂ h
  · exact nodup_dkeys_dupdate _ _ ha₃

/-! ## Supporting lemmas: the VISA path -/

theorem visaTriples_names (inst : Instrument) :
    ∀ (channels : List String)
      (ts : List (String × List ℚ × List (String × String))),
      visaTriples inst channels = .ok ts →
      ts.map (fun t => t.1) = channels.take ts.length := by
  intro channels
  induction channels with
  | nil =>
    intro ts h
    simp only [visaTriples] at h
    cases h
    simp
  | cons c rest ih =>
    intro ts h
    simp only [visaTriples] at h
    by_cases hsel : startsWithZero (inst.selectResp c)
    · rw [if_pos hsel] at h
      cases h
      simp
    · rw [if_neg hsel] at h
      cases hd : decodeChannel (inst.header c) (inst.curveText c)
          (inst.curveBytes c) with
      | error e => rw [hd] at h; simp at h
      | ok vals =>
        rw [hd] at h
        cases ht : visaTriples inst rest with
        | error e => rw [ht] at h; simp at h
        | ok ts₂ =>
          rw [ht] at h
          simp only [except_bind_ok, except_pure_eq, Except.map_ok,
            Except.ok.injEq] at h
          subst h
          simp only [List.map_cons, List.length_cons, List.take_succ_cons,
            List.cons.injEq, true_and]
          exact ih ts₂ ht

theorem foldl_visaStep_header
    (ts : List (String × List ℚ × List (String × String))) :
    ∀ (wf : WaveformCollection (List ℚ) String),
      (ts.foldl visaStep wf).header =
        ((ts.getLast?).map (fun t => t.2.2)).getD wf.header := by
  induction ts with
  | nil => intro wf; simp
  | cons t rest ih =>
    intro wf
    rw [List.foldl_cons, ih (visaStep wf t)]
    cases rest with
    | nil => simp [visaStep, WaveformCollection.setHeader]
    | cons t₂ rest₂ =>
      obtain ⟨x, hx⟩ := Option.isSome_iff_exists.mp
        (List.getLast?_isSome.mpr (List.cons_ne_nil t₂ rest₂))
      simp [hx]

theorem foldl_visaStep_data_not_mem
    (ts : List (String × List ℚ × List (String × String))) :
    ∀ (wf : WaveformCollection (List ℚ) String) (n : String),
      n ∉ ts.map (fun t => t.1) →
      dget (ts.foldl visaStep wf).data n = dget wf.data n := by
  induction ts with
  | nil => intro wf n _; rfl
  | cons t rest ih =>
    intro wf n hn
    simp only [List.map_cons, List.mem_cons] at hn
    push_neg at hn
    rw [List.foldl_cons, ih (visaStep wf t) n (by simpa using hn.2)]
    by_cases hhd : t.1 = "header"
    · simp [visaStep, WaveformCollection.setHeader,
        WaveformCollection.setData, hhd]
    · simp only [visaStep, WaveformCollection.setHeader,
        WaveformCollection.setData, if_neg hhd]
      exact dget_dinsert_ne wf.data t.2.1 (fun he => hn.1 he.symm)

theorem foldl_visaStep_data_mem
    (ts : List (String × List ℚ × List (String × String))) :
    ∀ (wf : WaveformCollection (List ℚ) String)
      (t₀ : String × List ℚ × List (String × String)),
      t₀ ∈ ts → (ts.map (fun t => t.1)).Nodup →
      "header" ∉ ts.map (fun t => t.1) →
      dget (ts.foldl visaStep wf).data t₀.1 = some t₀.2.1 := by
  induction ts with
  | nil => intro _ _ h; cases h
  | cons t rest ih =>
    intro wf t₀ hmem hnd hh
    simp only [List.map_cons, List.nodup_cons] at hnd
    simp only [List.map_cons, List.mem_cons] at hh
    push_neg at hh
    rcases List.mem_cons.mp hmem with he | hrest
    · subst he
      rw [List.foldl_cons,
        foldl_visaStep_data_not_mem rest (visaStep wf t₀) t₀.1 hnd.1]
      have hne : ¬ t₀.1 = "header" := fun hc => hh.1 hc.symm
      simp only [visaStep, WaveformCollection.setHeader,
        WaveformCollection.setData, if_neg hne]
      exact dget_dinsert_self wf.data t₀.1 t₀.2.1
    · exact ih (visaStep wf t) t₀ hrest hnd.2 (by simpa using hh.2)

/-! ## Supporting lemmas: merge success -/

theorem add_eq_ok {V HV : Type} (a b : WaveformCollection V HV)
    (h : a.idn = b.idn) : a.add b = .ok (mergeContent a b) := by
  simp [WaveformCollection.add, h]

/-! ## Claim theorems -/

/-- C1: in ASCII mode every comma-separated token of the raw curve string
is converted with `float` and the affine transform
`physical = (raw - YOFF) * YMULT + YZERO` is applied to every decoded raw
value; in particular the header `YMULT=2.0, YOFF=10, YZERO=1.0, ENCDG=ASCII`
with raw string `"10,20,30"` decodes to `[1.0, 21.0, 41.0]`. -/
theorem C1_ascii_affine_decode :
    (∀ (hdr : List (String × String)) (curveText : String)
        (curveBytes : List ℕ) (sm so sz : String) (qm qo qz : ℚ)
        (xs : List ℚ),
      dget hdr "YMULT" = some sm → parseFloat sm = some qm →
      dget hdr "YOFF" = some so → parseFloat so = some qo →
      dget hdr "YZERO" = some sz → parseFloat sz = some qz →
      dget hdr "ENCDG" = some "ASCII" →
      (pySplit curveText ',').mapM parseFloat = some xs →
      decodeChannel hdr curveText curveBytes =
        .ok (xs.map (fun raw => (raw - qo) * qm + qz))) ∧
    decodeChannel
        [("YMULT", "2.0"), ("YOFF", "10"), ("YZERO", "1.0"),
         ("ENCDG", "ASCII")] "10,20,30" [] =
      .ok [1, 21, 41] := by
  constructor
  · intro hdr curveText curveBytes sm so sz qm qo qz xs h₁ h₂ h₃ h₄ h₅ h₆ h₇ h₈
    simp only [decodeChannel, calField, strField, h₁, h₂, h₃, h₄, h₅, h₆, h₇,
      except_bind_ok, if_pos]
    exact decodeAsciiCurve_eq_map qm qo qz curveText xs h₈
  · decide

/-- Witness for C1: the general statement applied to the scenario header
and curve string. -/
theorem C1_ascii_affine_decode_witness :
    decodeChannel
        [("YMULT", "2.0"), ("YOFF", "10"), ("YZERO", "1.0"),
         ("ENCDG", "ASCII")] "10,20,30" [] =
      .ok ([10, 20, 30].map (fun raw => ((raw : ℚ) - 10) * 2 + 1)) :=
  C1_ascii_affine_decode.1 _ "10,20,30" [] "2.0" "10" "1.0" 2 10 1 [10, 20, 30]
    (by decide) (by decide) (by decide) (by decide) (by decide) (by decide)
    (by decide) (by decide)

/-- C2: binary decoding takes its element type from the fixed
`FORMATTER_LOOKUP` table and reads element bytes most-significant-first
exactly when `BYT_OR = "MSB"`, least-significant-first otherwise (reversing
an element's bytes while flipping the flag yields the same value); the
scenario header `BYT_NR=2, BN_FMT=RI, BYT_OR=MSB` with the four bytes
`[0x00, 0x01, 0x00, 0x02]` decodes to `[1.0, 2.0]`. -/
theorem C2_binary_lookup_endianness :
    decodeChannel
        [("BYT_NR", "2"), ("BN_FMT", "RI"), ("BYT_OR", "MSB"),
         ("YMULT", "1"), ("YOFF", "0"), ("YZERO", "0"), ("ENCDG", "BINARY")]
        "" [0x00, 0x01, 0x00, 0x02] = .ok [1, 2] ∧
    FORMATTER_LOOKUP "2" "RI" = some FmtCode.h ∧
    (∀ (fmt : FmtCode) (chunk : List ℕ), chunk.length = fmt.width →
      decodeBinary fmt true chunk = decodeBinary fmt false chunk.reverse) := by
  refine ⟨by decide, rfl, ?_⟩
  intro fmt chunk hlen
  have hne : chunk ≠ [] := by
    intro he
    rw [he] at hlen
    simp only [List.length_nil] at hlen
    have := FmtCode.width_pos fmt
    omega
  have hrne : chunk.reverse ≠ [] := by simpa using hne
  have hmod : chunk.length % fmt.width = 0 := by
    rw [hlen]; exact Nat.mod_self _
  have hmod₂ : chunk.reverse.length % fmt.width = 0 := by
    rw [List.length_reverse, hlen]; exact Nat.mod_self _
  simp only [decodeBinary, if_pos hmod, if_pos hmod₂]
  rw [chunkList_eq_width _ _ hlen hne,
    chunkList_eq_width _ _ (by rw [List.length_reverse]; exact hlen) hrne]
  simp [List.mapM, List.mapM.loop, List.reverse_reverse]

/-- Witness for C2: the byte-order statement applied to the two-byte signed
format at a concrete element. -/
theorem C2_binary_lookup_endianness_witness :
    decodeBinary FmtCode.h true [0, 1] =
      decodeBinary FmtCode.h false ([0, 1].reverse) :=
  C2_binary_lookup_endianness.2.2 FmtCode.h [0, 1] (by decide)

/-- C3 (code-bug exhibit): with CH1 reported disabled (`select:CH1?`
answers `"0"`) and CH2 enabled and decodable, `get_data_visa` on
`["CH1", "CH2"]` returns a collection with no channel entries and an empty
header: inside the generator, `return [], header` raises `StopIteration`,
so the empty-sequence/header pair is discarded and CH2 is never visited —
contrary to the claim (and to the source's own comment). -/
theorem C3_disabled_channel_stops_iteration :
    getDataVisa
        { idn := "TEK"
          selectResp := fun s => if s = "CH1" then "0" else "1"
          header := fun _ =>
            [("YMULT", "1"), ("YOFF", "0"), ("YZERO", "0"),
             ("ENCDG", "ASCII")]
          curveText := fun _ => "5,6"
          curveBytes := fun _ => [] }
        ["CH1", "CH2"] =
      .ok { idn := "TEK", data := [], header := [] } ∧
    startsWithZero ((fun s => if s = "CH1" then "0" else "1") "CH1") = true ∧
    startsWithZero ((fun s => if s = "CH1" then "0" else "1") "CH2") = false ∧
    decodeChannel
        [("YMULT", "1"), ("YOFF", "0"), ("YZERO", "0"), ("ENCDG", "ASCII")]
        "5,6" [] = .ok [5, 6] := by
  exact ⟨by decide, by decide, by decide, by decide⟩

/-- C4: `+` on two collections succeeds exactly when their `idn` strings
are equal (including both empty), and raises the incompatible-merge error
whenever they differ. -/
theorem C4_merge_idn_gate {V HV : Type} (a b : WaveformCollection V HV) :
    ((∃ m, a.add b = .ok m) ↔ a.idn = b.idn) ∧
    (a.idn ≠ b.idn →
      a.add b = .error MergeError.IncompatibleMergeError) := by
  by_cases h : a.idn = b.idn
  · exact ⟨⟨fun _ => h, fun _ => ⟨mergeContent a b, add_eq_ok a b h⟩⟩,
      fun hc => absurd h hc⟩
  · constructor
    · constructor
      · rintro ⟨m, hm⟩
        simp only [WaveformCollection.add, if_neg h] at hm
        exact absurd hm (by simp)
      · intro hc
        exact absurd hc h
    · intro _
      simp only [WaveformCollection.add, if_neg h]

/-- Witness for C4: a mismatching pair raises, an equal (empty) pair
merges. -/
theorem C4_merge_idn_gate_witness :
    ((⟨"A", [], []⟩ : WaveformCollection (List ℚ) String).add ⟨"B", [], []⟩ =
      .error MergeError.IncompatibleMergeError) ∧
    (∃ m, (⟨"", [], []⟩ : WaveformCollection (List ℚ) String).add
      ⟨"", [], []⟩ = .ok m) :=
  ⟨(C4_merge_idn_gate ⟨"A", [], []⟩ ⟨"B", [], []⟩).2 (by decide),
   (C4_merge_idn_gate ⟨"", [], []⟩ ⟨"", [], []⟩).1.mpr rfl⟩

/-- C5: merging equal-`idn` collections unions the headers and the channel
maps with the right-hand side winning on key/name collision; merging two
single-channel collections holding CH1 and CH2 under the shared empty idn
yields sources `["CH1", "CH2"]` in merge order. -/
theorem C5_merge_right_bias :
    (∀ (V HV : Type) (a b : WaveformCollection V HV),
      a.idn = b.idn →
      (dkeys b.data).Nodup → "header" ∉ dkeys b.data →
      (dkeys b.header).Nodup →
      a.add b = .ok (mergeContent a b) ∧
      (∀ k, dget (mergeContent a b).header k =
        (dget b.header k).orElse (fun _ => dget a.header k)) ∧
      (∀ n, dget (mergeContent a b).data n =
        (dget b.data n).orElse (fun _ => dget a.data n))) ∧
    ((⟨"", [("CH1", [1])], []⟩ : WaveformCollection (List ℚ) String).add
        ⟨"", [("CH2", [2])], []⟩).map WaveformCollection.sources =
      .ok ["CH1", "CH2"] := by
  constructor
  · intro V HV a b hid hnd hh hnh
    refine ⟨add_eq_ok a b hid, ?_, ?_⟩
    · intro k
      exact dget_dupdate a.header b.header k hnh
    · intro n
      exact dget_mergeData a.data b.data n hnd hh
  · decide

/-- Witness for C5: the general statement applied to the two scenario
singletons. -/
theorem C5_merge_right_bias_witness :
    (⟨"", [("CH1", [1])], []⟩ : WaveformCollection (List ℚ) String).add
        ⟨"", [("CH2", [2])], []⟩ =
      .ok (mergeContent ⟨"", [("CH1", [1])], []⟩ ⟨"", [("CH2", [2])], []⟩) ∧
    (∀ k,
      dget (mergeContent
          (⟨"", [("CH1", [1])], []⟩ : WaveformCollection (List ℚ) String)
          ⟨"", [("CH2", [2])], []⟩).header k =
        (dget ([] : List (String × String)) k).orElse
          (fun _ => dget ([] : List (String × String)) k)) ∧
    (∀ n,
      dget (mergeContent
          (⟨"", [("CH1", [1])], []⟩ : WaveformCollection (List ℚ) String)
          ⟨"", [("CH2", [2])], []⟩).data n =
        (dget [("CH2", [2])] n).orElse
          (fun _ => dget [("CH1", [1])] n)) :=
  C5_merge_right_bias.1 (List ℚ) String ⟨"", [("CH1", [1])], []⟩
    ⟨"", [("CH2", [2])], []⟩ rfl (by decide) (by decide) (by decide)

/-- C6 (counterexample): merge is not commutative in content — two
equal-`idn` collections that disagree on channel CH1 merge to different
CH1 datasets depending on the order, because the right-hand operand wins
on a name collision. -/
theorem C6_merge_not_commutative :
    ((⟨"", [("CH1", [1])], []⟩ : WaveformCollection (List ℚ) String).add
        ⟨"", [("CH1", [2])], []⟩).map (fun m => dget m.data "CH1") =
      .ok (some [2]) ∧
    ((⟨"", [("CH1", [2])], []⟩ : WaveformCollection (List ℚ) String).add
        ⟨"", [("CH1", [1])], []⟩).map (fun m => dget m.data "CH1") =
      .ok (some [1]) ∧
    ([2] : List ℚ) ≠ [1] := by
  exact ⟨by decide, by decide, by decide⟩

/-- C6 (amended): with matching `idn` values merge is associative in
content, and it is commutative in content exactly under agreement — when
the two collections assign equal datasets to every shared channel name and
equal values to every shared header key; with a disagreeing shared entry
the right-hand operand wins, so the two orders differ. -/
theorem C6_merge_assoc_comm_amended :
    (∀ (V HV : Type) (a b c : WaveformCollection V HV),
      a.idn = b.idn → b.idn = c.idn →
      WFcoll a → WFcoll b → WFcoll c →
      ∃ m₁ m₂,
        (∃ mab, a.add b = .ok mab ∧ mab.add c = .ok m₁) ∧
        (∃ mbc, b.add c = .ok mbc ∧ a.add mbc = .ok m₂) ∧
        (∀ n, dget m₁.data n = dget m₂.data n) ∧
        (∀ k, dget m₁.header k = dget m₂.header k)) ∧
    (∀ (V HV : Type) (a b : WaveformCollection V HV),
      a.idn = b.idn → WFcoll a → WFcoll b →
      (∀ n v₁ v₂, dget a.data n = some v₁ → dget b.data n = some v₂ →
        v₁ = v₂) →
      (∀ k w₁ w₂, dget a.header k = some w₁ → dget b.header k = some w₂ →
        w₁ = w₂) →
      ∃ m₁ m₂, a.add b = .ok m₁ ∧ b.add a = .ok m₂ ∧
        (∀ n, dget m₁.data n = dget m₂.data n) ∧
        (∀ k, dget m₁.header k = dget m₂.header k)) := by
  constructor
  · intro V HV a b c hab hbc ha hb hc
    have hb₁ := hb.1
    have hb₂ := hb.2.1
    have hb₃ := hb.2.2
    have hc₁ := hc.1
    have hc₂ := hc.2.1
    have hc₃ := hc.2.2
    obtain ⟨hm₁, hm₂, hm₃⟩ := WFcoll_mergeContent b c hb hc
    refine ⟨mergeContent (mergeContent a b) c,
      mergeContent a (mergeContent b c),
      ⟨mergeContent a b, add_eq_ok a b hab,
        add_eq_ok (mergeContent a b) c (hab.trans hbc)⟩,
      ⟨mergeContent b c, add_eq_ok b c hbc,
        add_eq_ok a (mergeContent b c) hab⟩, ?_, ?_⟩
    · intro n
      rw [show (mergeContent (mergeContent a b) c).data =
          mergeData (mergeContent a b).data c.data from rfl,
        dget_mergeData _ _ n hc₁ hc₂,
        show (mergeContent a b).data = mergeData a.data b.data from rfl,
        dget_mergeData _ _ n hb₁ hb₂,
        show (mergeContent a (mergeContent b c)).data =
          mergeData a.data (mergeContent b c).data from rfl,
        dget_mergeData _ _ n hm₁ hm₂,
        show (mergeContent b c).data = mergeData b.data c.data from rfl,
        dget_mergeData _ _ n hc₁ hc₂]
      cases dget c.data n <;> cases dget b.data n <;> simp [Option.orElse]
    · intro k
      rw [show (mergeContent (mergeContent a b) c).header =
          dupdate (mergeContent a b).header c.header from rfl,
        dget_dupdate _ _ k hc₃,
        show (mergeContent a b).header = dupdate a.header b.header from rfl,
        dget_dupdate _ _ k hb₃,
        show (mergeContent a (mergeContent b c)).header =
          dupdate a.header (mergeContent b c).header from rfl,
        dget_dupdate _ _ k hm₃,
        show (mergeContent b c).header = dupdate b.header c.header from rfl,
        dget_dupdate _ _ k hc₃]
      cases dget c.header k <;> cases dget b.header k <;> simp [Option.orElse]
  · intro V HV a b hab ha hb hdata hhdr
    obtain ⟨ha₁, ha₂, ha₃⟩ := ha
    obtain ⟨hb₁, hb₂, hb₃⟩ := hb
    refine ⟨mergeContent a b, mergeContent b a, add_eq_ok a b hab,
      add_eq_ok b a hab.symm, ?_, ?_⟩
    · intro n
      rw [show (mergeContent a b).data = mergeData a.data b.data from rfl,
        dget_mergeData _ _ n hb₁ hb₂,
        show (mergeContent b a).data = mergeData b.data a.data from rfl,
        dget_mergeData _ _ n ha₁ ha₂]
      cases hda : dget a.data n <;> cases hdb : dget b.data n <;>
        simp [Option.orElse]
      exact (hdata n _ _ hda hdb).symm
    · intro k
      rw [show (mergeContent a b).header = dupdate a.header b.header from rfl,
        dget_dupdate _ _ k hb₃,
        show (mergeContent b a).header = dupdate b.header a.header from rfl,
        dget_dupdate _ _ k ha₃]
      cases hda : dget a.header k <;> cases hdb : dget b.header k <;>
        simp [Option.orElse]
      exact (hhdr k _ _ hda hdb).symm

/-- Witness for C6 (amended): three channel-disjoint singletons under the
empty idn. -/
theorem C6_merge_assoc_comm_amended_witness :
    ∃ m₁ m₂,
      (∃ mab, (⟨"", [("CH1", [1])], []⟩ :
          WaveformCollection (List ℚ) String).add ⟨"", [("CH2", [2])], []⟩ =
            .ok mab ∧
        mab.add ⟨"", [("CH3", [3])], []⟩ = .ok m₁) ∧
      (∃ mbc, (⟨"", [("CH2", [2])], []⟩ :
          WaveformCollection (List ℚ) String).add ⟨"", [("CH3", [3])], []⟩ =
            .ok mbc ∧
        (⟨"", [("CH1", [1])], []⟩ :
          WaveformCollection (List ℚ) String).add mbc = .ok m₂) ∧
      (∀ n, dget m₁.data n = dget m₂.data n) ∧
      (∀ k, dget m₁.header k = dget m₂.header k) :=
  C6_merge_assoc_comm_amended.1 (List ℚ) String ⟨"", [("CH1", [1])], []⟩
    ⟨"", [("CH2", [2])], []⟩ ⟨"", [("CH3", [3])], []⟩ rfl rfl
    (by decide) (by decide) (by decide)

/-- C7 (counterexample): `",v"` is a comma-separated line with exactly two
fields, neither blank nor of a different field count, but the parser does
not add it as a header entry — Python's truthiness test on `words[0]` skips
every two-field line whose first field is empty. -/
theorem C7_two_field_empty_key_skipped :
    (pySplit (pyStrip ",v") ',').length = 2 ∧
    pyStrip ",v" ≠ "" ∧
    (parseResponseHeader [",v", "Label", "T,Q"]).1 = ⟨[], ["T", "Q"]⟩ := by
  exact ⟨by decide, by decide, by decide⟩

/-- C7 (amended): the preamble loop stops the moment a line's first
comma-separated field is `"Label"`; a two-field line with a nonempty first
field (other than the sentinel) becomes a header entry; blank lines, lines
with a different field count and two-field lines with an empty first field
are ignored; at most `fuel` (21 in `parse_response`) lines are consumed;
and the column-label row is the line read immediately after the
preamble. -/
theorem C7_preamble_amended :
    (∀ (fuel : ℕ) (line : String) (ls : List String)
        (hdr : List (String × String)),
      (pySplit (pyStrip line) ',').headD "" = "Label" →
      parsePreambleAux (fuel + 1) (line :: ls) hdr = (hdr, ls)) ∧
    (∀ (fuel : ℕ) (line : String) (ls : List String)
        (hdr : List (String × String)) (k v : String),
      pySplit (pyStrip line) ',' = [k, v] → k ≠ "Label" → k ≠ "" →
      parsePreambleAux (fuel + 1) (line :: ls) hdr =
        parsePreambleAux fuel ls (dinsert hdr k v)) ∧
    (∀ (fuel : ℕ) (line : String) (ls : List String)
        (hdr : List (String × String)),
      (pySplit (pyStrip line) ',').headD "" ≠ "Label" →
      ((pySplit (pyStrip line) ',').length ≠ 2 ∨
        (pySplit (pyStrip line) ',').headD "" = "") →
      parsePreambleAux (fuel + 1) (line :: ls) hdr =
        parsePreambleAux fuel ls hdr) ∧
    (∀ (fuel : ℕ) (ls : List String) (hdr : List (String × String)),
      ∃ j ≤ fuel, (parsePreambleAux fuel ls hdr).2 = ls.drop j) ∧
    (∀ ls : List String,
      (parseResponseHeader ls).1.label =
        pySplit (pyStrip ((parsePreambleAux 21 ls []).2.headD "")) ',') := by
  refine ⟨?_, ?_, ?_, ?_, ?_⟩
  · intro fuel line ls hdr hlab
    simp only [parsePreambleAux, readline]
    rw [if_pos hlab]
  · intro fuel line ls hdr k v hw hk₁ hk₂
    simp only [parsePreambleAux, readline, hw]
    have hhd : ([k, v].headD "") = k := rfl
    rw [hhd, if_neg hk₁, if_neg hk₂]
  · intro fuel line ls hdr hlab hshape
    simp only [parsePreambleAux, readline]
    rw [if_neg hlab]
    rcases hw : pySplit (pyStrip line) ',' with _ | ⟨a, _ | ⟨b, _ | ⟨c, r⟩⟩⟩
    · rfl
    · rfl
    · rw [hw] at hshape
      have ha : a = "" := by
        rcases hshape with h | h
        · exact absurd rfl h
        · exact h
      subst ha
      rfl
    · rfl
  · intro fuel
    induction fuel with
    | zero => exact fun ls hdr => ⟨0, Nat.le_refl 0, rfl⟩
    | succ n ih =>
      intro ls hdr
      cases ls with
      | nil =>
        obtain ⟨j, hj, hd⟩ := ih [] hdr
        refine ⟨j, Nat.le_succ_of_le hj, ?_⟩
        rw [show parsePreambleAux (n + 1) ([] : List String) hdr =
          parsePreambleAux n [] hdr from rfl]
        exact hd
      | cons line rest =>
        by_cases hlab : (pySplit (pyStrip line) ',').headD "" = "Label"
        · refine ⟨1, by omega, ?_⟩
          simp only [parsePreambleAux, readline]
          rw [if_pos hlab]
          rfl
        · have hstep : ∃ hdr₂,
              parsePreambleAux (n + 1) (line :: rest) hdr =
                parsePreambleAux n rest hdr₂ := by
            simp only [parsePreambleAux, readline]
            rw [if_neg hlab]
            rcases pySplit (pyStrip line) ',' with _ | ⟨a, _ | ⟨b, _ | ⟨c, r⟩⟩⟩
            · exact ⟨hdr, rfl⟩
            · exact ⟨hdr, rfl⟩
            · by_cases ha : a = ""
              · subst ha
                exact ⟨hdr, rfl⟩
              · refine ⟨dinsert hdr a b, ?_⟩
                show (if a = "" then parsePreambleAux n rest hdr
                  else parsePreambleAux n rest (dinsert hdr a b)) =
                    parsePreambleAux n rest (dinsert hdr a b)
                rw [if_neg ha]
            · exact ⟨hdr, rfl⟩
          obtain ⟨hdr₂, hstep⟩ := hstep
          obtain ⟨j, hj, hd⟩ := ih rest hdr₂
          exact ⟨j + 1, by omega, by rw [hstep, hd]; rfl⟩
  · intro ls
    rcases hp : parsePreambleAux 21 ls [] with ⟨hdr, rest⟩
    cases rest with
    | nil => simp [parseResponseHeader, hp, readline]
    | cons l₂ rest₂ => simp [parseResponseHeader, hp, readline]

/-- Witness for C7 (amended): the sentinel stop, a kept two-field line and
an ignored empty-key line, each at a concrete input. -/
theorem C7_preamble_amended_witness :
    parsePreambleAux 21 ["Label,x", "rest"] [] = ([], ["rest"]) ∧
    parsePreambleAux 21 ["a,1"] [] = parsePreambleAux 20 [] (dinsert [] "a" "1") ∧
    parsePreambleAux 21 [",v"] [] = parsePreambleAux 20 [] [] :=
  ⟨C7_preamble_amended.1 20 "Label,x" ["rest"] [] (by decide),
   C7_preamble_amended.2.1 20 "a,1" [] [] "a" "1" (by decide) (by decide)
     (by decide),
   C7_preamble_amended.2.2.1 20 ",v" [] [] (by decide)
     (Or.inr (by decide))⟩

/-- C8: a `(BYT_NR, BN_FMT)` pair absent from `FORMATTER_LOOKUP` makes a
binary decode fail with the named `UnsupportedFormatError` rather than
silently defaulting; width `"1"` with format `"FP"` and the out-of-table
width `"3"` are indeed absent. -/
theorem C8_unsupported_format_error :
    (∀ (hdr : List (String × String)) (curveText : String)
        (curveBytes : List ℕ) (qm qo qz : ℚ) (bytNr bnFmt : String),
      calField hdr "YMULT" = .ok qm →
      calField hdr "YOFF" = .ok qo →
      calField hdr "YZERO" = .ok qz →
      strField hdr "ENCDG" = .ok "BINARY" →
      strField hdr "BYT_NR" = .ok bytNr →
      strField hdr "BN_FMT" = .ok bnFmt →
      FORMATTER_LOOKUP bytNr bnFmt = none →
      decodeChannel hdr curveText curveBytes =
        .error DecodeError.UnsupportedFormatError) ∧
    FORMATTER_LOOKUP "1" "FP" = none ∧
    FORMATTER_LOOKUP "3" "RI" = none := by
  refine ⟨?_, rfl, rfl⟩
  intro hdr ct cb qm qo qz bytNr bnFmt h₁ h₂ h₃ h₄ h₅ h₆ h₇
  simp only [decodeChannel, h₁, h₂, h₃, h₄, h₅, h₆, h₇, except_bind_ok]
  rw [if_neg (by decide : ¬ ("BINARY" = "ASCII"))]
  simp only [if_true, if_pos]
  rfl

/-- Witness for C8: a header naming the absent pair `("1", "FP")`. -/
theorem C8_unsupported_format_error_witness :
    decodeChannel
        [("YMULT", "1"), ("YOFF", "0"), ("YZERO", "0"), ("ENCDG", "BINARY"),
         ("BYT_NR", "1"), ("BN_FMT", "FP")] "" [] =
      .error DecodeError.UnsupportedFormatError :=
  C8_unsupported_format_error.1 _ "" [] 1 0 0 "1" "FP" (by decide) (by decide)
    (by decide) (by decide) (by decide) (by decide) (by decide)

/-- C9: when a non-empty channel list is fully processed (one yielded
triple per requested channel, distinct names, none named `"header"`), each
iteration inserts that channel's `(name, samples)` entry and overwrites the
collection's single shared header, so the returned header is the
last-processed channel's and every channel's entry is retained. -/
theorem C9_last_header_wins
    (inst : Instrument) (channels : List String)
    (ts : List (String × List ℚ × List (String × String)))
    (hok : visaTriples inst channels = .ok ts)
    (hlen : ts.length = channels.length)
    (hne : channels ≠ [])
    (hnd : channels.Nodup)
    (hh : "header" ∉ channels) :
    ∃ wf, getDataVisa inst channels = .ok wf ∧
      (∃ tLast, ts.getLast? = some tLast ∧ wf.header = tLast.2.2) ∧
      (∀ t ∈ ts, dget wf.data t.1 = some t.2.1) ∧
      ts.map (fun t => t.1) = channels := by
  have hnames : ts.map (fun t => t.1) = channels := by
    have h := visaTriples_names inst channels ts hok
    rwa [hlen, List.take_length] at h
  have htne : ts ≠ [] := by
    intro he
    rw [he] at hlen
    exact hne (List.length_eq_zero.mp hlen.symm)
  refine ⟨ts.foldl visaStep { idn := inst.idn, data := [], header := [] },
    ?_, ?_, ?_, hnames⟩
  · simp [getDataVisa, hok]
  · obtain ⟨x, hx⟩ := Option.isSome_iff_exists.mp
      (List.getLast?_isSome.mpr htne)
    exact ⟨x, hx, by rw [foldl_visaStep_header, hx]; rfl⟩
  · intro t ht
    exact foldl_visaStep_data_mem ts _ t ht (by rw [hnames]; exact hnd)
      (by rw [hnames]; exact hh)

/-- Witness for C9: two enabled ASCII channels with distinguishable
headers. -/
theorem C9_last_header_wins_witness :
    ∃ wf,
      getDataVisa
          { idn := "TEK"
            selectResp := fun _ => "1"
            header := fun s =>
              [("YMULT", "1"), ("YOFF", "0"), ("YZERO", "0"),
               ("ENCDG", "ASCII"), ("SRC", s)]
            curveText := fun s => if s = "CH1" then "1,2" else "3"
            curveBytes := fun _ => [] }
          ["CH1", "CH2"] = .ok wf ∧
      (∃ tLast,
        ([("CH1", ([1, 2] : List ℚ),
            [("YMULT", "1"), ("YOFF", "0"), ("YZERO", "0"),
             ("ENCDG", "ASCII"), ("SRC", "CH1")]),
          ("CH2", ([3] : List ℚ),
            [("YMULT", "1"), ("YOFF", "0"), ("YZERO", "0"),
             ("ENCDG", "ASCII"), ("SRC", "CH2")])].getLast?) = some tLast ∧
        wf.header = tLast.2.2) ∧
      (∀ t ∈
        [("CH1", ([1, 2] : List ℚ),
            [("YMULT", "1"), ("YOFF", "0"), ("YZERO", "0"),
             ("ENCDG", "ASCII"), ("SRC", "CH1")]),
          ("CH2", ([3] : List ℚ),
            [("YMULT", "1"), ("YOFF", "0"), ("YZERO", "0"),
             ("ENCDG", "ASCII"), ("SRC", "CH2")])],
        dget wf.data t.1 = some t.2.1) ∧
      ([("CH1", ([1, 2] : List ℚ),
            [("YMULT", "1"), ("YOFF", "0"), ("YZERO", "0"),
             ("ENCDG", "ASCII"), ("SRC", "CH1")]),
          ("CH2", ([3] : List ℚ),
            [("YMULT", "1"), ("YOFF", "0"), ("YZERO", "0"),
             ("ENCDG", "ASCII"), ("SRC", "CH2")])].map (fun t => t.1)) =
        ["CH1", "CH2"] :=
  C9_last_header_wins _ ["CH1", "CH2"] _ (by decide) (by decide) (by decide)
    (by decide) (by decide)

/-- C10: on equal `idn`, evaluating `a + b` mutates `a` in place — after
the call the left heap cell holds the merged content while the right cell
still holds `b` unchanged — and the returned reference is the left object
itself, not a fresh collection. -/
theorem C10_add_mutates_left_in_place :
    ∀ (V HV : Type) (s : TwoCells V HV),
      s.a.idn = s.b.idn →
      addMut s = .ok (⟨mergeContent s.a s.b, s.b⟩, RetRef.left) ∧
      s.a.add s.b = .ok (mergeContent s.a s.b) := by
  intro V HV s h
  constructor
  · simp only [addMut, if_pos h]
    rfl
  · exact add_eq_ok s.a s.b h

/-- Witness for C10: two concrete singleton collections under the empty
idn. -/
theorem C10_add_mutates_left_in_place_witness :
    addMut (⟨⟨"", [("CH1", [1])], []⟩, ⟨"", [("CH2", [2])], []⟩⟩ :
        TwoCells (List ℚ) String) =
      .ok (⟨mergeContent ⟨"", [("CH1", [1])], []⟩ ⟨"", [("CH2", [2])], []⟩,
        ⟨"", [("CH2", [2])], []⟩⟩, RetRef.left) ∧
    (⟨"", [("CH1", [1])], []⟩ : WaveformCollection (List ℚ) String).add
        ⟨"", [("CH2", [2])], []⟩ =
      .ok (mergeContent ⟨"", [("CH1", [1])], []⟩ ⟨"", [("CH2", [2])], []⟩) :=
  C10_add_mutates_left_in_place (List ℚ) String
    ⟨⟨"", [("CH1", [1])], []⟩, ⟨"", [("CH2", [2])], []⟩⟩ rfl

end Embedding

end PyTektronix
